import Mathlib

/-!
Verification of `djcelery/managers.py` (django-celery persistence managers).

The Python module is shallowly embedded: Python dictionaries become
insertion-ordered association lists (`Dict`), model instances become `Obj`
(a primary key plus an attribute dictionary), a database table becomes `DB`
(a list of rows plus a primary-key counter), and the ORM primitives used by
the module (`get`, `get_or_create`, `save`, `delete`, `filter`, `update`)
become explicit state-passing functions.  Field lookups are modelled as
exact attribute equality (the module only uses plain field names such as
`task_id`; lookup operators containing `__` never occur in it).
-/

set_option autoImplicit false
set_option linter.unusedSectionVars false

namespace DjCelery

/-- A Python dictionary: insertion-ordered key/value pairs with unique keys.
Uniqueness is not baked into the type; the operations below implement the
Python semantics (assignment replaces in place, otherwise appends). -/
abbrev Dict (V : Type) := List (String × V)

variable {V : Type} [DecidableEq V]

/-- `d[key]` as an option: the value at the first occurrence of `key`. -/
def dlookup : Dict V → String → Option V
  | [], _ => none
  | (k, v) :: t, key => if k = key then some v else dlookup t key

/-- Python dict assignment `d[k] = v`: replace in place if the key is
present, else append at the end (insertion order). -/
def dset : Dict V → String → V → Dict V
  | [], k, v => [(k, v)]
  | (k', v') :: t, k, v =>
      if k' = k then (k, v) :: t else (k', v') :: dset t k v

/-- Key removal, as done by `dict.pop`. -/
def dremove (d : Dict V) (k : String) : Dict V :=
  d.filter (fun p => p.1 ≠ k)

/-- Python `d.update(other)`: assign every pair of `other` into `d`,
in order. -/
def dupdate (d other : Dict V) : Dict V :=
  other.foldl (fun acc p => dset acc p.1 p.2) d

/-- The keys of a dictionary, in order. -/
def dkeys (d : Dict V) : List String :=
  d.map Prod.fst

@[simp]
theorem dkeys_nil : dkeys ([] : Dict V) = [] := rfl

@[simp]
theorem dkeys_cons (k : String) (v : V) (t : Dict V) :
    dkeys ((k, v) :: t) = k :: dkeys t := rfl

/-- Well-formedness of a dictionary: keys are pairwise distinct (always
true for an actual Python dict). -/
def WFd (d : Dict V) : Prop :=
  (dkeys d).Nodup

instance (d : Dict V) : Decidable (WFd d) := by
  unfold WFd; infer_instance

/-- Left-biased choice on options (`a` if present, else `b`). -/
def oor {α : Type} : Option α → Option α → Option α
  | some x, _ => some x
  | none, b => b

@[simp]
theorem oor_some {α : Type} (x : α) (b : Option α) : oor (some x) b = some x := rfl

@[simp]
theorem oor_none {α : Type} (b : Option α) : oor none b = b := rfl

theorem dlookup_dset (d : Dict V) (k : String) (v : V) (key : String) :
    dlookup (dset d k v) key = if k = key then some v else dlookup d key := by
  induction d with
  | nil => simp [dset, dlookup]
  | cons p t ih =>
      obtain ⟨k', v'⟩ := p
      by_cases hk : k' = k
      · rw [show dset ((k', v') :: t) k v = (k, v) :: t from by simp [dset, hk]]
        by_cases hkey : k = key
        · simp [dlookup, hkey]
        · have hk'key : ¬k' = key := by rw [hk]; exact hkey
          simp [dlookup, hkey, hk'key]
      · rw [show dset ((k', v') :: t) k v = (k', v') :: dset t k v from by
          simp [dset, hk]]
        by_cases hkey : k' = key
        · have hne : ¬k = key := by
            intro h; exact hk (by rw [hkey, h])
          simp [dlookup, hkey, hne]
        · simp [dlookup, hkey, ih]

theorem dlookup_eq_none_of_not_mem (d : Dict V) (key : String)
    (h : key ∉ dkeys d) : dlookup d key = none := by
  induction d with
  | nil => rfl
  | cons p t ih =>
      obtain ⟨k', v'⟩ := p
      have h1 : ¬k' = key := fun he => h (by simp [he])
      have h2 : key ∉ dkeys t := fun hm => h (by simp [hm])
      simp [dlookup, h1, ih h2]

theorem dlookup_of_mem_wf (d : Dict V) (k : String) (v : V)
    (hwf : WFd d) (hmem : (k, v) ∈ d) : dlookup d k = some v := by
  induction d with
  | nil => cases hmem
  | cons p t ih =>
      obtain ⟨k', v'⟩ := p
      have hwf' : k' ∉ dkeys t ∧ (dkeys t).Nodup := by
        simpa [WFd, List.nodup_cons] using hwf
      rcases List.mem_cons.mp hmem with h | h
      · cases h; simp [dlookup]
      · have hk : ¬k' = k := by
          intro he
          apply hwf'.1
          have hkm : k ∈ List.map Prod.fst t := List.mem_map_of_mem Prod.fst h
          rw [he]; exact hkm
        simp only [dlookup, if_neg hk]
        exact ih hwf'.2 h

theorem dlookup_dupdate (d other : Dict V) (key : String) (hwf : WFd other) :
    dlookup (dupdate d other) key = oor (dlookup other key) (dlookup d key) := by
  induction other generalizing d with
  | nil => simp [dupdate, dlookup]
  | cons p t ih =>
      obtain ⟨k, v⟩ := p
      have hwf' : k ∉ dkeys t ∧ WFd t := by
        simpa [WFd, List.nodup_cons] using hwf
      have step : dupdate d ((k, v) :: t) = dupdate (dset d k v) t := rfl
      rw [step, ih _ hwf'.2]
      by_cases hk : k = key
      · subst hk
        have ht : dlookup t k = none := dlookup_eq_none_of_not_mem t k hwf'.1
        simp [dlookup, dlookup_dset, ht]
      · simp [dlookup, hk, dlookup_dset]

theorem dset_eq_self (d : Dict V) (k : String) (v : V)
    (h : dlookup d k = some v) : dset d k v = d := by
  induction d with
  | nil => simp [dlookup] at h
  | cons p t ih =>
      obtain ⟨k', v'⟩ := p
      by_cases hk : k' = k
      · have hv : v' = v := by simpa [dlookup, hk] using h
        simp [dset, hk, hv]
      · have h' : dlookup t k = some v := by simpa [dlookup, hk] using h
        simp [dset, hk, ih h']

theorem dupdate_eq_self (d fields : Dict V)
    (h : ∀ p ∈ fields, dlookup d p.1 = some p.2) : dupdate d fields = d := by
  induction fields with
  | nil => rfl
  | cons p t ih =>
      obtain ⟨k, v⟩ := p
      have step : dupdate d ((k, v) :: t) = dupdate (dset d k v) t := rfl
      rw [step, dset_eq_self d k v (h (k, v) (List.mem_cons_self _ _))]
      exact ih (fun q hq => h q (List.mem_cons_of_mem _ hq))

/-! ## The ORM layer used by `djcelery.managers`

A model instance is a primary key plus an attribute dictionary; a table is a
list of rows plus the next primary key to hand out. -/

/-- A model instance (a table row once saved). -/
structure Obj (V : Type) where
  pk : Nat
  attrs : Dict V
deriving DecidableEq

/-- A database table. -/
structure DB (V : Type) where
  rows : List (Obj V)
  nextPk : Nat
deriving DecidableEq

/-- Errors surfaced by the ORM operations modelled here.
`multipleReturned` is Django's `MultipleObjectsReturned` (raised by `get`
when more than one row matches); `typeError` is Python's `TypeError`
(raised, e.g., by `dict(x)` on a non-dict `defaults` value). -/
inductive OrmErr
  | multipleReturned
  | typeError
deriving DecidableEq

instance {ε α : Type} [DecidableEq ε] [DecidableEq α] :
    DecidableEq (Except ε α) := fun a b =>
  match a, b with
  | .error e, .error f =>
      decidable_of_iff (e = f)
        ⟨fun h => by rw [h], fun h => by cases h; rfl⟩
  | .ok x, .ok y =>
      decidable_of_iff (x = y)
        ⟨fun h => by rw [h], fun h => by cases h; rfl⟩
  | .error _, .ok _ => isFalse (fun h => by cases h)
  | .ok _, .error _ => isFalse (fun h => by cases h)

/-- Row matching for a set of plain field lookups: every looked-up field is
an attribute of the row with exactly the looked-up value. -/
def rowMatches (o : Obj V) (lk : Dict V) : Bool :=
  lk.all (fun p => decide (dlookup o.attrs p.1 = some p.2))

/-- `obj.save()`: update the row with the same primary key if one exists,
otherwise insert the instance as a new row. -/
def save (db : DB V) (o : Obj V) : DB V :=
  if db.rows.any (fun r => r.pk == o.pk) then
    { db with rows := db.rows.map (fun r => if r.pk == o.pk then o else r) }
  else
    { db with rows := db.rows ++ [o] }

/-- The lookup kwargs of a `get_or_create`/`update_or_create` call: every
keyword argument except `defaults`. -/
def lookups (kwargs : Dict V) : Dict V :=
  kwargs.filter (fun p => p.1 ≠ "defaults")

/-- `dict(kwargs.pop('defaults', {}))`: the `defaults` dictionary of the
call, interpreted through `asDict` (Python's `dict(...)` coercion, which
raises `TypeError` on a value that is not dict-like). -/
def getDefaults (asDict : V → Option (Dict V)) (kwargs : Dict V) :
    Except OrmErr (Dict V) :=
  match dlookup kwargs "defaults" with
  | none => .ok []
  | some v =>
      match asDict v with
      | some d => .ok d
      | none => .error .typeError

/-- `QuerySet.get_or_create(**kwargs)`: try `get` with the lookup kwargs;
on `DoesNotExist` create a row whose attributes are the lookup kwargs
updated with `defaults`, save it, and report `created = True`. -/
def getOrCreate (asDict : V → Option (Dict V)) (db : DB V) (kwargs : Dict V) :
    Except OrmErr (DB V × Obj V × Bool) :=
  let lk := lookups kwargs
  match db.rows.filter (fun o => rowMatches o lk) with
  | [o] => .ok (db, o, false)
  | [] =>
      match getDefaults asDict kwargs with
      | .error e => .error e
      | .ok d =>
          let o : Obj V := ⟨db.nextPk, dupdate lk d⟩
          .ok ({ rows := db.rows ++ [o], nextPk := db.nextPk + 1 }, o, true)
  | _ => .error .multipleReturned

/-- `update_model_with_dict(obj, fields)`: `setattr` the fields onto the
object in order, then `obj.save()`. -/
def updateModelWithDict (db : DB V) (o : Obj V) (fields : Dict V) :
    DB V × Obj V :=
  let o' : Obj V := ⟨o.pk, dupdate o.attrs fields⟩
  (save db o', o')

/-- The observable ORM calls made by `ExtendedQuerySet.update_or_create`. -/
inductive UEv
  | getOrCreate
  | save
deriving DecidableEq

/-- `ExtendedQuerySet.update_or_create(**kwargs)`: `get_or_create`, and if
the object already existed, overwrite its attributes with
`dict(kwargs.pop('defaults', {}))` updated with the remaining kwargs, then
save it.  Besides the new table state and the returned object the model
records the `created` flag and the trace of ORM calls made. -/
def updateOrCreate (asDict : V → Option (Dict V)) (db : DB V)
    (kwargs : Dict V) : Except OrmErr (DB V × Obj V × Bool × List UEv) :=
  match getOrCreate asDict db kwargs with
  | .error e => .error e
  | .ok (db1, o, created) =>
      if created then
        .ok (db1, o, true, [.getOrCreate])
      else
        match getDefaults asDict kwargs with
        | .error e => .error e
        | .ok d =>
            let fields := dupdate d (lookups kwargs)
            let r := updateModelWithDict db1 o fields
            .ok (r.1, r.2, false, [.getOrCreate, .save])

theorem oor_assoc {α : Type} (a b c : Option α) :
    oor (oor a b) c = oor a (oor b c) := by
  cases a <;> rfl

theorem dkeys_dset (d : Dict V) (k : String) (v : V) :
    dkeys (dset d k v) = if k ∈ dkeys d then dkeys d else dkeys d ++ [k] := by
  induction d with
  | nil => simp [dset]
  | cons p t ih =>
      obtain ⟨k', v'⟩ := p
      by_cases hk : k' = k
      · rw [show dset ((k', v') :: t) k v = (k, v) :: t from by simp [dset, hk]]
        simp [hk]
      · rw [show dset ((k', v') :: t) k v = (k', v') :: dset t k v from by
          simp [dset, hk]]
        have hne : ¬k = k' := fun h => hk h.symm
        by_cases hm : k ∈ dkeys t
        · simp [ih, hm, hne]
        · simp [ih, hm, hne]

theorem WFd_dset (d : Dict V) (k : String) (v : V) (hwf : WFd d) :
    WFd (dset d k v) := by
  unfold WFd
  rw [dkeys_dset]
  by_cases hm : k ∈ dkeys d
  · simpa [hm] using hwf
  · rw [if_neg hm]
    refine List.Nodup.append hwf (List.nodup_singleton k) ?_
    intro a ha hb
    rw [List.mem_singleton.mp hb] at ha
    exact hm ha

theorem WFd_dupdate (d other : Dict V) (hwf : WFd d) :
    WFd (dupdate d other) := by
  induction other generalizing d with
  | nil => exact hwf
  | cons p t ih =>
      have step : dupdate d (p :: t) = dupdate (dset d p.1 p.2) t := rfl
      rw [step]
      exact ih _ (WFd_dset d p.1 p.2 hwf)

/-- C1: `ExtendedQuerySet.update_or_create` returns the object produced by
`get_or_create`; when the object already existed (`created` false), its
attributes are first overwritten from the `defaults` dictionary merged with
the remaining lookup kwargs — lookup kwargs winning on key collision — and
the object is saved; when the object was newly created, no additional
attribute overwrite or save is performed. -/
theorem update_or_create_spec {V : Type} [DecidableEq V]
    (asDict : V → Option (Dict V)) (db db1 : DB V) (kwargs : Dict V)
    (o : Obj V) (created : Bool)
    (hg : getOrCreate asDict db kwargs = .ok (db1, o, created)) :
    (created = true →
      updateOrCreate asDict db kwargs = .ok (db1, o, true, [.getOrCreate])) ∧
    (created = false → ∀ d, getDefaults asDict kwargs = .ok d →
      WFd d → WFd (lookups kwargs) →
      ∃ o' : Obj V,
        updateOrCreate asDict db kwargs =
          .ok (save db1 o', o', false, [.getOrCreate, .save]) ∧
        o'.pk = o.pk ∧
        ∀ k, dlookup o'.attrs k =
          oor (dlookup (lookups kwargs) k)
            (oor (dlookup d k) (dlookup o.attrs k))) := by
  constructor
  · intro hc
    subst hc
    simp [updateOrCreate, hg]
  · intro hc d hd hwfd hwflk
    subst hc
    refine ⟨⟨o.pk, dupdate o.attrs (dupdate d (lookups kwargs))⟩, ?_, rfl, ?_⟩
    · simp [updateOrCreate, hg, hd, updateModelWithDict]
    · intro k
      have hwff : WFd (dupdate d (lookups kwargs)) := WFd_dupdate d _ hwfd
      rw [show (⟨o.pk, dupdate o.attrs (dupdate d (lookups kwargs))⟩ : Obj V).attrs
            = dupdate o.attrs (dupdate d (lookups kwargs)) from rfl]
      rw [dlookup_dupdate _ _ _ hwff, dlookup_dupdate _ _ _ hwflk, oor_assoc]

/-- C1 witness: a concrete not-created run.  The table holds one row
`{task_id: 7, status: 1}`; `update_or_create(task_id=7, defaults={status: 5})`
takes the update branch, overwrites the row and saves it. -/
theorem update_or_create_spec_witness :
    ∃ o' : Obj Nat,
      updateOrCreate (fun v => if v = 0 then some [("status", 5)] else none)
          ⟨[⟨0, [("task_id", 7), ("status", 1)]⟩], 1⟩
          [("task_id", 7), ("defaults", 0)] =
        .ok (save ⟨[⟨0, [("task_id", 7), ("status", 1)]⟩], 1⟩ o', o', false,
          [.getOrCreate, .save]) ∧
      o'.pk = (⟨0, [("task_id", 7), ("status", 1)]⟩ : Obj Nat).pk ∧
      ∀ k, dlookup o'.attrs k =
        oor (dlookup (lookups [("task_id", 7), ("defaults", 0)]) k)
          (oor (dlookup [("status", 5)] k)
            (dlookup [("task_id", 7), ("status", 1)] k)) :=
  (update_or_create_spec (fun v => if v = 0 then some [("status", 5)] else none)
      ⟨[⟨0, [("task_id", 7), ("status", 1)]⟩], 1⟩
      ⟨[⟨0, [("task_id", 7), ("status", 1)]⟩], 1⟩
      [("task_id", 7), ("defaults", 0)]
      ⟨0, [("task_id", 7), ("status", 1)]⟩ false (by decide)).2
    rfl [("status", 5)] (by decide) (by decide) (by decide)

/-- C6 counterexample: on a fresh table, `update_or_create(task_id=0)`
creates the object, and no `save` call follows the `get_or_create` call —
refuting "for every invocation, get_or_create is called and then save is
called on the returned object". -/
theorem update_or_create_always_saves_false :
    ¬ (∀ (asDict : Nat → Option (Dict Nat)) (db : DB Nat) (kwargs : Dict Nat)
        (r : DB Nat × Obj Nat × Bool × List UEv),
        updateOrCreate asDict db kwargs = .ok r → UEv.save ∈ r.2.2.2) := by
  intro h
  have hc := h (fun _ => none) ⟨[], 0⟩ [("task_id", 0)]
    (⟨[⟨0, [("task_id", 0)]⟩], 1⟩, ⟨0, [("task_id", 0)]⟩, true, [.getOrCreate])
    rfl
  simp at hc

/-- C6 (amended): every successful `update_or_create` invocation calls
`get_or_create` first, and calls `save` on the returned object exactly when
the object already existed (`created` false); when it was newly created no
`save` call follows. -/
theorem update_or_create_call_sequence {V : Type} [DecidableEq V]
    (asDict : V → Option (Dict V)) (db db' : DB V) (kwargs : Dict V)
    (o : Obj V) (created : Bool) (tr : List UEv)
    (h : updateOrCreate asDict db kwargs = .ok (db', o, created, tr)) :
    tr = if created then [UEv.getOrCreate] else [UEv.getOrCreate, UEv.save] := by
  unfold updateOrCreate at h
  cases hg : getOrCreate asDict db kwargs with
  | error e => rw [hg] at h; cases h
  | ok x =>
      obtain ⟨db1, o1, c⟩ := x
      rw [hg] at h
      cases c with
      | true =>
          simp only [if_pos] at h
          obtain ⟨h1, h2, h3, h4⟩ := by simpa using h
          subst h3
          rw [← h4]
          simp
      | false =>
          cases hd : getDefaults asDict kwargs with
          | error e => simp [hd] at h
          | ok d =>
              simp only [Bool.false_eq_true, if_false, hd] at h
              obtain ⟨h1, h2, h3, h4⟩ := by simpa using h
              subst h3
              rw [← h4]
              simp

/-- C6 (amended) witness: in the concrete created run the trace is exactly
`[get_or_create]` (no save). -/
theorem update_or_create_call_sequence_witness :
    (if (true : Bool) then [UEv.getOrCreate]
     else [UEv.getOrCreate, UEv.save]) = [UEv.getOrCreate] :=
  (update_or_create_call_sequence (fun _ => none) ⟨[], 0⟩
      ⟨[⟨0, [("task_id", 0)]⟩], 1⟩ [("task_id", (0 : Nat))]
      ⟨0, [("task_id", 0)]⟩ true [UEv.getOrCreate] rfl).symm

/-! ## `transaction_retry`

The decorator is modelled as a function from the per-attempt outcomes of
the wrapped function (`f i ks` is what attempt `i`, called with kwargs
`ks`, raises or returns) to the final outcome together with the trace of
observable events (attempts and `rollback_unless_managed()` calls). -/

/-- Observable events of a `transaction_retry`-wrapped call: an attempt of
the wrapped function (recording the kwargs it receives) or a
`rollback_unless_managed()` call. -/
inductive REv (V : Type)
  | call (i : Nat) (kwargs : Dict V)
  | rollback
deriving DecidableEq

/-- The retry loop body: with no retries
left an exception propagates immediately; otherwise a rollback is issued
(its own exceptions are swallowed, so it is a mere event) and the next
attempt runs. -/
def runRetry {V E A : Type} (f : Nat → Except E A) (ks : Dict V) :
    Nat → Nat → List (REv V) × Except E A
  | i, 0 => ([.call i ks], f i)
  | i, n + 1 =>
      match f i with
      | .ok v => ([.call i ks], .ok v)
      | .error _ =>
          let r := runRetry f ks (i + 1) n
          (.call i ks :: .rollback :: r.1, r.2)

/-- `transaction_retry(max_retries)` applied to `f`: pop
`exception_retry_count` from the kwargs (defaulting to `max_retries`) and
run the retry loop, each attempt receiving the remaining kwargs. -/
def transactionRetry {V E A : Type} [DecidableEq V] (maxRetries : Nat)
    (vnat : V → Nat) (f : Nat → Dict V → Except E A) (kwargs : Dict V) :
    List (REv V) × Except E A :=
  let N := match dlookup kwargs "exception_retry_count" with
           | some v => vnat v
           | none => maxRetries
  let ks := dremove kwargs "exception_retry_count"
  runRetry (fun i => f i ks) ks 0 N

/-- Number of attempts recorded in a trace. -/
def callCount {V : Type} (tr : List (REv V)) : Nat :=
  tr.countP (fun e => match e with | .call _ _ => true | .rollback => false)

theorem runRetry_all_fail {V E A : Type} (f : Nat → Except E A) (ks : Dict V)
    (N i : Nat) (h : ∀ d, d ≤ N → ∃ e, f (i + d) = .error e) :
    (runRetry f ks i N).2 = f (i + N) ∧
    callCount (runRetry f ks i N).1 = N + 1 := by
  induction N generalizing i with
  | zero => simp [runRetry, callCount]
  | succ n ih =>
      obtain ⟨e, he⟩ := h 0 (Nat.zero_le _)
      rw [Nat.add_zero] at he
      have step :
          runRetry f ks i (n + 1) =
            (.call i ks :: .rollback :: (runRetry f ks (i + 1) n).1,
             (runRetry f ks (i + 1) n).2) := by
        simp [runRetry, he]
      have ih' := ih (i + 1) (fun d hd => by
        obtain ⟨e', he'⟩ := h (d + 1) (by omega)
        exact ⟨e', by rw [show i + 1 + d = i + (d + 1) from by omega]; exact he'⟩)
      constructor
      · rw [step]
        simpa [show i + 1 + n = i + (n + 1) from by omega] using ih'.1
      · rw [step]
        simp [callCount, List.countP_cons] at ih' ⊢
        omega

theorem runRetry_first_success {V E A : Type} (f : Nat → Except E A)
    (ks : Dict V) (N i j : Nat) (v : A) (hj : j ≤ N)
    (hfail : ∀ d, d < j → ∃ e, f (i + d) = .error e)
    (hok : f (i + j) = .ok v) :
    (runRetry f ks i N).2 = .ok v ∧
    callCount (runRetry f ks i N).1 = j + 1 := by
  induction N generalizing i j with
  | zero =>
      have hj0 : j = 0 := by omega
      subst hj0
      rw [Nat.add_zero] at hok
      simp [runRetry, hok, callCount]
  | succ n ih =>
      cases j with
      | zero =>
          rw [Nat.add_zero] at hok
          simp [runRetry, hok, callCount]
      | succ m =>
          obtain ⟨e, he⟩ := hfail 0 (Nat.succ_pos m)
          rw [Nat.add_zero] at he
          have step :
              runRetry f ks i (n + 1) =
                (.call i ks :: .rollback :: (runRetry f ks (i + 1) n).1,
                 (runRetry f ks (i + 1) n).2) := by
            simp [runRetry, he]
          have ih' := ih (i + 1) m (by omega)
            (fun d hd => by
              obtain ⟨e', he'⟩ := hfail (d + 1) (by omega)
              exact ⟨e', by rw [show i + 1 + d = i + (d + 1) from by omega]
                            exact he'⟩)
            (by rw [show i + 1 + m = i + (m + 1) from by omega]; exact hok)
          constructor
          · rw [step]; exact ih'.1
          · rw [step]
            simp [callCount, List.countP_cons] at ih' ⊢
            omega

theorem runRetry_call_kwargs {V E A : Type} (f : Nat → Except E A)
    (ks : Dict V) (N i : Nat) :
    ∀ ev ∈ (runRetry f ks i N).1, ∀ i' ks', ev = .call i' ks' → ks' = ks := by
  induction N generalizing i with
  | zero =>
      intro ev hev i' ks' heq
      simp [runRetry] at hev
      subst hev
      cases heq
      rfl
  | succ n ih =>
      intro ev hev i' ks' heq
      cases hf : f i with
      | ok v =>
          simp [runRetry, hf] at hev
          subst hev; cases heq; rfl
      | error e =>
          simp [runRetry, hf] at hev
          rcases hev with hev | hev | hev
          · subst hev; cases heq; rfl
          · subst hev; cases heq
          · exact ih (i + 1) ev hev i' ks' heq

/-- C2: for a `transaction_retry(max_retries)`-wrapped function,
`exception_retry_count` is popped from the kwargs before any attempt; if
attempts `0..j-1` raise and attempt `j ≤ N` succeeds, the decorated call
returns that attempt's value after exactly `j + 1` attempts; if every
attempt up to `N` raises, the wrapped function is attempted exactly
`N + 1 ≤ N + 1` times and the outcome is the last attempt's exception
(`N` being `max_retries`, or the caller-supplied `exception_retry_count`). -/
theorem transaction_retry_spec {V E A : Type} [DecidableEq V]
    (maxRetries : Nat) (vnat : V → Nat) (f : Nat → Dict V → Except E A)
    (kwargs : Dict V) (N : Nat) (ks : Dict V)
    (hN : N = (match dlookup kwargs "exception_retry_count" with
               | some v => vnat v
               | none => maxRetries))
    (hks : ks = dremove kwargs "exception_retry_count") :
    (∀ ev ∈ (transactionRetry maxRetries vnat f kwargs).1,
      ∀ i' ks', ev = .call i' ks' → ks' = ks) ∧
    (∀ j v, j ≤ N → (∀ d, d < j → ∃ e, f d ks = .error e) →
      f j ks = .ok v →
      (transactionRetry maxRetries vnat f kwargs).2 = .ok v ∧
      callCount (transactionRetry maxRetries vnat f kwargs).1 = j + 1) ∧
    ((∀ d, d ≤ N → ∃ e, f d ks = .error e) →
      (transactionRetry maxRetries vnat f kwargs).2 = f N ks ∧
      callCount (transactionRetry maxRetries vnat f kwargs).1 = N + 1) := by
  have hdef : transactionRetry maxRetries vnat f kwargs =
      runRetry (fun i => f i ks) ks 0 N := by
    rw [hN, hks]; rfl
  refine ⟨?_, ?_, ?_⟩
  · rw [hdef]
    exact runRetry_call_kwargs (fun i => f i ks) ks N 0
  · intro j v hj hfail hok
    rw [hdef]
    exact runRetry_first_success (fun i => f i ks) ks N 0 j v hj
      (fun d hd => by simpa using hfail d hd) (by simpa using hok)
  · intro hfail
    rw [hdef]
    have h := runRetry_all_fail (fun i => f i ks) ks N 0
      (fun d hd => by simpa using hfail d hd)
    simpa using h

/-- C2 witness: with `exception_retry_count=1` in the kwargs, a function
failing on attempt 0 and succeeding on attempt 1 yields the success value
after exactly two attempts. -/
theorem transaction_retry_spec_witness :
    (transactionRetry 5 id
        (fun i (_ : Dict Nat) =>
          if i = 0 then (Except.error "boom" : Except String Nat)
          else .ok 42)
        [("exception_retry_count", 1)]).2 = .ok 42 ∧
    callCount (transactionRetry 5 id
        (fun i (_ : Dict Nat) =>
          if i = 0 then (Except.error "boom" : Except String Nat)
          else .ok 42)
        [("exception_retry_count", 1)]).1 = 1 + 1 :=
  (transaction_retry_spec 5 id
      (fun i (_ : Dict Nat) =>
        if i = 0 then (Except.error "boom" : Except String Nat) else .ok 42)
      [("exception_retry_count", 1)] 1 [] rfl rfl).2.1 1 42
    (by omega)
    (fun d hd => ⟨"boom", by
      have hd0 : d = 0 := by omega
      subst hd0; rfl⟩)
    rfl

/-- The rollback/attempt interleaving of a run that makes `k` attempts
starting at attempt `i`: one rollback strictly between consecutive
attempts, none before the first or after the last. -/
def expectedTrace {V : Type} (ks : Dict V) : Nat → Nat → List (REv V)
  | _, 0 => []
  | i, 1 => [.call i ks]
  | i, k + 2 => .call i ks :: .rollback :: expectedTrace ks (i + 1) (k + 1)

theorem runRetry_trace_shape {V E A : Type} (f : Nat → Except E A)
    (ks : Dict V) (N i : Nat) :
    ∃ k, 1 ≤ k ∧ (runRetry f ks i N).1 = expectedTrace ks i k := by
  induction N generalizing i with
  | zero => exact ⟨1, le_refl 1, rfl⟩
  | succ n ih =>
      cases hf : f i with
      | ok v => exact ⟨1, le_refl 1, by simp [runRetry, hf, expectedTrace]⟩
      | error e =>
          obtain ⟨k, hk, heq⟩ := ih (i + 1)
          obtain ⟨m, hm⟩ : ∃ m, k = m + 1 := ⟨k - 1, by omega⟩
          refine ⟨k + 1, by omega, ?_⟩
          subst hm
          simp [runRetry, hf, expectedTrace, heq]

/-- C3: every `transaction_retry` run has the trace shape
`call, (rollback, call)*`: exactly one `rollback_unless_managed()` between
any two consecutive attempts, and no rollback after the final failing
attempt (the exception is re-raised directly) nor after a successful
attempt. -/
theorem transaction_retry_rollback_shape {V E A : Type} [DecidableEq V]
    (maxRetries : Nat) (vnat : V → Nat) (f : Nat → Dict V → Except E A)
    (kwargs : Dict V) :
    ∃ k, 1 ≤ k ∧
      (transactionRetry maxRetries vnat f kwargs).1 =
        expectedTrace (dremove kwargs "exception_retry_count") 0 k :=
  runRetry_trace_shape
    (fun i => f i (dremove kwargs "exception_retry_count"))
    (dremove kwargs "exception_retry_count") _ 0

/-! ## `TaskManager.store_result` and its idempotence -/

/-- `TaskManager.store_result(task_id, result, status, traceback, children)`:
the upsert `update_or_create(task_id=..., defaults={'status': ...,
'result': ..., 'traceback': ..., 'meta': {'children': ...}})`.  `mkDict`
embeds a dictionary as an attribute value (used for the `defaults` kwarg
and the `meta` field); `asDict` is the `dict(...)` interpretation of
values. -/
def storeResult (asDict : V → Option (Dict V)) (mkDict : Dict V → V)
    (db : DB V) (task_id result status traceback children : V) :
    Except OrmErr (DB V × Obj V × Bool × List UEv) :=
  updateOrCreate asDict db
    [("task_id", task_id),
     ("defaults", mkDict
        [("status", status), ("result", result), ("traceback", traceback),
         ("meta", mkDict [("children", children)])])]

theorem getOrCreate_hit (asDict : V → Option (Dict V)) (db : DB V)
    (kwargs : Dict V) (r : Obj V)
    (hfil : db.rows.filter (fun o => rowMatches o (lookups kwargs)) = [r]) :
    getOrCreate asDict db kwargs = .ok (db, r, false) := by
  simp only [getOrCreate, hfil]

theorem getOrCreate_miss (asDict : V → Option (Dict V)) (db : DB V)
    (kwargs : Dict V) (d : Dict V)
    (hfil : db.rows.filter (fun o => rowMatches o (lookups kwargs)) = [])
    (hd : getDefaults asDict kwargs = .ok d) :
    getOrCreate asDict db kwargs =
      .ok (⟨db.rows ++ [⟨db.nextPk, dupdate (lookups kwargs) d⟩],
            db.nextPk + 1⟩,
           ⟨db.nextPk, dupdate (lookups kwargs) d⟩, true) := by
  simp only [getOrCreate, hfil, hd]

theorem updateOrCreate_created (asDict : V → Option (Dict V)) (db db1 : DB V)
    (kwargs : Dict V) (o : Obj V)
    (h : getOrCreate asDict db kwargs = .ok (db1, o, true)) :
    updateOrCreate asDict db kwargs = .ok (db1, o, true, [.getOrCreate]) := by
  simp [updateOrCreate, h]

theorem updateOrCreate_existing (asDict : V → Option (Dict V)) (db db1 : DB V)
    (kwargs : Dict V) (o : Obj V) (d : Dict V)
    (h : getOrCreate asDict db kwargs = .ok (db1, o, false))
    (hd : getDefaults asDict kwargs = .ok d) :
    updateOrCreate asDict db kwargs =
      .ok (save db1 ⟨o.pk, dupdate o.attrs (dupdate d (lookups kwargs))⟩,
           ⟨o.pk, dupdate o.attrs (dupdate d (lookups kwargs))⟩, false,
           [.getOrCreate, .save]) := by
  simp [updateOrCreate, h, hd, updateModelWithDict]

theorem save_eq_self (db : DB V) (o : Obj V) (hmem : o ∈ db.rows)
    (huniq : ∀ q ∈ db.rows, q.pk = o.pk → q = o) : save db o = db := by
  have hany : db.rows.any (fun r => r.pk == o.pk) = true :=
    List.any_eq_true.mpr ⟨o, hmem, by simp⟩
  have hmap : db.rows.map (fun r => if r.pk == o.pk then o else r) = db.rows := by
    rw [show db.rows = db.rows.map id from (List.map_id db.rows).symm]
    rw [List.map_map]
    apply List.map_congr_left
    intro a ha
    by_cases hpk : a.pk = o.pk
    · simp [hpk, (huniq a ha hpk).symm]
    · simp [hpk]
  unfold save
  rw [if_pos hany, hmap]

theorem eq_of_pk_nodup (l : List (Obj V)) (hnd : (l.map Obj.pk).Nodup)
    (r q : Obj V) (hr : r ∈ l) (hq : q ∈ l) (hpk : q.pk = r.pk) : q = r := by
  induction l with
  | nil => cases hr
  | cons a t ih =>
      have hnd' : a.pk ∉ t.map Obj.pk ∧ (t.map Obj.pk).Nodup := by
        simpa using hnd
      rcases List.mem_cons.mp hr with h1 | h1 <;>
        rcases List.mem_cons.mp hq with h2 | h2
      · rw [h1, h2]
      · exfalso
        apply hnd'.1
        rw [← h1, ← hpk]
        exact List.mem_map_of_mem Obj.pk h2
      · exfalso
        apply hnd'.1
        rw [← h2, hpk]
        exact List.mem_map_of_mem Obj.pk h1
      · exact ih hnd'.2 h1 h2

theorem filter_map_update (l : List (Obj V)) (p : Obj V → Bool) (r o' : Obj V)
    (hf : l.filter p = [r])
    (hpk : ∀ q ∈ l, q.pk = r.pk → q = r)
    (hp : p o' = true) :
    (l.map (fun x => if x.pk == r.pk then o' else x)).filter p = [o'] := by
  induction l with
  | nil => simp at hf
  | cons q t ih =>
      by_cases hq : p q = true
      · have hft : q :: t.filter p = [r] := by
          rw [← List.filter_cons_of_pos hq]; exact hf
        have hqr : q = r := (List.cons.injEq _ _ _ _ ▸ hft).1
        have htnil : t.filter p = [] := (List.cons.injEq _ _ _ _ ▸ hft).2
        have hpr : p r = true := hqr ▸ hq
        have hmapnil : (t.map (fun x => if x.pk == r.pk then o' else x)).filter p = [] := by
          rw [List.filter_eq_nil_iff]
          intro b hb
          obtain ⟨x, hx, hbx⟩ := List.mem_map.mp hb
          by_cases hxpk : x.pk = r.pk
          · exfalso
            have hxr : x = r := hpk x (List.mem_cons_of_mem _ hx) hxpk
            have : ¬ p x = true := (List.filter_eq_nil_iff.mp htnil) x hx
            exact this (hxr ▸ hpr)
          · rw [show b = x from by rw [← hbx]; simp [hxpk]]
            exact (List.filter_eq_nil_iff.mp htnil) x hx
        simp only [List.map_cons]
        rw [show (if q.pk == r.pk then o' else q) = o' from by simp [hqr]]
        rw [List.filter_cons_of_pos hp, hmapnil]
      · have hft : t.filter p = [r] := by
          rw [List.filter_cons_of_neg hq] at hf; exact hf
        have hrm : r ∈ t ∧ p r = true := by
          have : r ∈ t.filter p := hft ▸ List.mem_singleton_self r
          exact ⟨List.mem_of_mem_filter this, List.of_mem_filter this⟩
        have hqpk : ¬ q.pk = r.pk := by
          intro h
          have heq : q = r := hpk q (List.mem_cons_self _ _) h
          rw [heq] at hq
          exact hq hrm.2
        simp only [List.map_cons]
        rw [show (if q.pk == r.pk then o' else q) = q from by simp [hqpk]]
        rw [List.filter_cons_of_neg hq]
        exact ih hft (fun x hx h => hpk x (List.mem_cons_of_mem _ hx) h)

section Probe
variable (mkDict : Dict V → V) (tid res st tb ch : V)

example : lookups [("task_id", tid), ("defaults", mkDict [("x", res)])] = [("task_id", tid)] := rfl

example : dlookup [("task_id", tid), ("defaults", mkDict [("x", res)])] "defaults" = some (mkDict [("x", res)]) := rfl

example : dupdate [("status", st), ("result", res)] [("task_id", tid)] = [("status", st), ("result", res), ("task_id", tid)] := rfl

example : dlookup (dupdate [("task_id", tid)] [("status", st), ("result", res)]) "task_id" = some tid := rfl

example : dkeys (dupdate [("status", st), ("result", res)] [("task_id", tid)]) = ["status", "result", "task_id"] := rfl

end Probe

/-- C7: `TaskManager.store_result` is idempotent: on a well-formed table
(distinct primary keys below the counter) holding at most one row for the
`task_id`, calling it twice with the same arguments returns the same table
as calling it once; the second call takes the update branch (`created`
false, trace `get_or_create` then `save`), and the final table holds
exactly one row for the `task_id`, carrying the given status, result,
traceback and children. -/
theorem store_result_idempotent {V : Type} [DecidableEq V]
    (asDict : V → Option (Dict V)) (mkDict : Dict V → V)
    (hinv : ∀ dd, asDict (mkDict dd) = some dd)
    (db : DB V) (tid res st tb ch : V)
    (hnd : (db.rows.map Obj.pk).Nodup)
    (hbound : ∀ r ∈ db.rows, r.pk < db.nextPk)
    (hcount :
      (db.rows.filter (fun o => rowMatches o [("task_id", tid)])).length ≤ 1) :
    ∃ (db1 : DB V) (o1 : Obj V) (c1 : Bool) (tr1 : List UEv) (o2 : Obj V),
      storeResult asDict mkDict db tid res st tb ch = .ok (db1, o1, c1, tr1) ∧
      storeResult asDict mkDict db1 tid res st tb ch =
        .ok (db1, o2, false, [.getOrCreate, .save]) ∧
      (db1.rows.filter (fun o => rowMatches o [("task_id", tid)])).length = 1 ∧
      ∀ r ∈ db1.rows, rowMatches r [("task_id", tid)] = true →
        dlookup r.attrs "task_id" = some tid ∧
        dlookup r.attrs "status" = some st ∧
        dlookup r.attrs "result" = some res ∧
        dlookup r.attrs "traceback" = some tb ∧
        dlookup r.attrs "meta" = some (mkDict [("children", ch)]) := by
  classical
  set mv : V := mkDict [("children", ch)] with hmv
  set defs : Dict V :=
    [("status", st), ("result", res), ("traceback", tb), ("meta", mv)]
    with hdefs_def
  set kwargs : Dict V := [("task_id", tid), ("defaults", mkDict defs)]
    with hkw
  set lk : Dict V := [("task_id", tid)] with hlk_def
  have h1 : lookups kwargs = lk := rfl
  have h2 : getDefaults asDict kwargs = .ok defs := by
    unfold getDefaults
    rw [show dlookup kwargs "defaults" = some (mkDict defs) from rfl]
    simp [hinv defs]
  have hwff : WFd (dupdate defs lk) := by
    show (dkeys (dupdate defs lk)).Nodup
    rw [show dkeys (dupdate defs lk) =
          ["status", "result", "traceback", "meta", "task_id"] from rfl]
    decide
  have hsr : ∀ dbx : DB V,
      storeResult asDict mkDict dbx tid res st tb ch =
        updateOrCreate asDict dbx kwargs := fun _ => rfl
  cases hfil : db.rows.filter (fun o => rowMatches o lk) with
  | nil =>
      -- the first call creates the row
      have hf' : db.rows.filter (fun o => rowMatches o (lookups kwargs)) = [] := by
        rw [h1]; exact hfil
      have hg := getOrCreate_miss asDict db kwargs defs hf' h2
      rw [h1] at hg
      set o1 : Obj V := ⟨db.nextPk, dupdate lk defs⟩ with ho1
      set db1 : DB V := ⟨db.rows ++ [o1], db.nextPk + 1⟩ with hdb1
      have hstore1 : storeResult asDict mkDict db tid res st tb ch =
          .ok (db1, o1, true, [.getOrCreate]) := by
        rw [hsr db]
        exact updateOrCreate_created asDict db db1 kwargs o1 hg
      have hm1 : rowMatches o1 lk = true := by
        have hl : dlookup o1.attrs "task_id" = some tid := rfl
        unfold rowMatches
        rw [hlk_def]
        simp [hl]
      have hfil2 : db1.rows.filter (fun o => rowMatches o lk) = [o1] := by
        show (db.rows ++ [o1]).filter (fun o => rowMatches o lk) = [o1]
        rw [List.filter_append, hfil]
        simp [hm1]
      have hgoc2 : getOrCreate asDict db1 kwargs = .ok (db1, o1, false) :=
        getOrCreate_hit asDict db1 kwargs o1 (by rw [h1]; exact hfil2)
      have hnoop : dupdate o1.attrs (dupdate defs lk) = o1.attrs := by
        apply dupdate_eq_self
        intro q hq
        rw [show dupdate defs lk =
              [("status", st), ("result", res), ("traceback", tb),
               ("meta", mv), ("task_id", tid)] from rfl] at hq
        simp only [List.mem_cons, List.not_mem_nil, or_false] at hq
        rcases hq with rfl | rfl | rfl | rfl | rfl <;> rfl
      have hsave2 : save db1 o1 = db1 := by
        apply save_eq_self
        · exact List.mem_append_right _ (List.mem_singleton_self o1)
        · intro q hq hqpk
          rcases List.mem_append.mp hq with hq' | hq'
          · exfalso
            have := hbound q hq'
            rw [show o1.pk = db.nextPk from rfl] at hqpk
            omega
          · exact List.mem_singleton.mp hq'
      have hstore2 : storeResult asDict mkDict db1 tid res st tb ch =
          .ok (db1, o1, false, [.getOrCreate, .save]) := by
        rw [hsr db1]
        have h := updateOrCreate_existing asDict db1 db1 kwargs o1 defs hgoc2 h2
        rw [h1, hnoop] at h
        rw [show (⟨o1.pk, o1.attrs⟩ : Obj V) = o1 from rfl] at h
        rw [hsave2] at h
        exact h
      refine ⟨db1, o1, true, [.getOrCreate], o1, hstore1, hstore2, ?_, ?_⟩
      · rw [hfil2]
        rfl
      · intro r hr hmr
        have hrf : r ∈ db1.rows.filter (fun o => rowMatches o lk) :=
          List.mem_filter.mpr ⟨hr, hmr⟩
        rw [hfil2] at hrf
        rw [List.mem_singleton.mp hrf]
        exact ⟨rfl, rfl, rfl, rfl, rfl⟩
  | cons rr rest =>
      cases rest with
      | nil =>
          -- the first call already finds the row and updates it
          have hrmem : rr ∈ db.rows :=
            List.mem_of_mem_filter (hfil ▸ List.mem_singleton_self rr)
          have hgoc1 : getOrCreate asDict db kwargs = .ok (db, rr, false) :=
            getOrCreate_hit asDict db kwargs rr (by rw [h1]; exact hfil)
          set o' : Obj V := ⟨rr.pk, dupdate rr.attrs (dupdate defs lk)⟩ with ho'
          have hstore1 : storeResult asDict mkDict db tid res st tb ch =
              .ok (save db o', o', false, [.getOrCreate, .save]) := by
            rw [hsr db]
            have h := updateOrCreate_existing asDict db db kwargs rr defs hgoc1 h2
            rw [h1] at h
            exact h
          have hany : db.rows.any (fun x => x.pk == o'.pk) = true :=
            List.any_eq_true.mpr ⟨rr, hrmem, by simp [ho']⟩
          have hdb1eq : save db o' =
              ⟨db.rows.map (fun x => if x.pk == o'.pk then o' else x),
               db.nextPk⟩ := by
            unfold save
            rw [if_pos hany]
          set db1 : DB V :=
            ⟨db.rows.map (fun x => if x.pk == o'.pk then o' else x),
             db.nextPk⟩ with hdb1
          have key : ∀ (kk : String) (vv : V),
              dlookup (dupdate defs lk) kk = some vv →
              dlookup o'.attrs kk = some vv := by
            intro kk vv hkv
            rw [show o'.attrs = dupdate rr.attrs (dupdate defs lk) from rfl]
            rw [dlookup_dupdate _ _ _ hwff, hkv]
            rfl
          have hmo' : rowMatches o' lk = true := by
            have hl : dlookup o'.attrs "task_id" = some tid :=
              key "task_id" tid rfl
            unfold rowMatches
            rw [hlk_def]
            simp [hl]
          have hpk_uniq : ∀ q ∈ db.rows, q.pk = rr.pk → q = rr :=
            fun q hq hpk => eq_of_pk_nodup db.rows hnd rr q hrmem hq hpk
          have hfil2 : db1.rows.filter (fun o => rowMatches o lk) = [o'] := by
            show (db.rows.map (fun x => if x.pk == o'.pk then o' else x)).filter
                (fun o => rowMatches o lk) = [o']
            rw [show (fun x : Obj V => if x.pk == o'.pk then o' else x) =
                  (fun x : Obj V => if x.pk == rr.pk then o' else x) from rfl]
            exact filter_map_update db.rows _ rr o' hfil hpk_uniq hmo'
          have hgoc2 : getOrCreate asDict db1 kwargs = .ok (db1, o', false) :=
            getOrCreate_hit asDict db1 kwargs o' (by rw [h1]; exact hfil2)
          have hnoop : dupdate o'.attrs (dupdate defs lk) = o'.attrs := by
            apply dupdate_eq_self
            intro q hq
            have hq' : (q.1, q.2) ∈ dupdate defs lk := hq
            exact key q.1 q.2 (dlookup_of_mem_wf _ _ _ hwff hq')
          have ho'mem : o' ∈ db1.rows := by
            show o' ∈ db.rows.map (fun x => if x.pk == o'.pk then o' else x)
            exact List.mem_map.mpr ⟨rr, hrmem, by simp [ho']⟩
          have huniq2 : ∀ q ∈ db1.rows, q.pk = o'.pk → q = o' := by
            intro q hq hqpk
            obtain ⟨x, hx, hfx⟩ := List.mem_map.mp hq
            by_cases hxpk : x.pk = o'.pk
            · rw [← hfx]
              simp [hxpk]
            · exfalso
              apply hxpk
              rw [← hfx] at hqpk
              simp [hxpk] at hqpk
          have hsave2 : save db1 o' = db1 := save_eq_self db1 o' ho'mem huniq2
          have hstore2 : storeResult asDict mkDict db1 tid res st tb ch =
              .ok (db1, o', false, [.getOrCreate, .save]) := by
            rw [hsr db1]
            have h := updateOrCreate_existing asDict db1 db1 kwargs o' defs hgoc2 h2
            rw [h1, hnoop] at h
            rw [show (⟨o'.pk, o'.attrs⟩ : Obj V) = o' from rfl] at h
            rw [hsave2] at h
            exact h
          refine ⟨db1, o', false, [.getOrCreate, .save], o',
            ?_, hstore2, ?_, ?_⟩
          · rw [hstore1, hdb1eq]
          · rw [hfil2]
            rfl
          · intro r hr hmr
            have hrf : r ∈ db1.rows.filter (fun o => rowMatches o lk) :=
              List.mem_filter.mpr ⟨hr, hmr⟩
            rw [hfil2] at hrf
            rw [List.mem_singleton.mp hrf]
            exact ⟨key "task_id" tid rfl, key "status" st rfl,
              key "result" res rfl, key "traceback" tb rfl, key "meta" mv rfl⟩
      | cons qq rest' =>
          exfalso
          rw [hfil] at hcount
          simp at hcount

instance : Encodable Char :=
  Encodable.ofLeftInjection Char.toNat (fun n => some (Char.ofNat n))
    (fun c => congrArg some (Char.ofNat_toNat c))

instance : Encodable String :=
  Encodable.ofLeftInjection String.data (fun l => some (String.mk l))
    (fun _ => rfl)

/-- A concrete embedding of dictionaries over `ℕ` into `ℕ`, used to
instantiate the generic value type in witnesses. -/
def natMkDict (d : Dict Nat) : Nat :=
  Encodable.encode d

/-- The matching `dict(...)` interpretation for `natMkDict`. -/
def natAsDict (v : Nat) : Option (Dict Nat) :=
  Encodable.decode v

theorem natAsDict_natMkDict (dd : Dict Nat) :
    natAsDict (natMkDict dd) = some dd :=
  Encodable.encodek dd

/-- C7 witness: storing a result twice on an initially empty table: the
second call returns the same table with `created = false`, and the single
row holds the stored fields. -/
theorem store_result_idempotent_witness :
    ∃ (db1 : DB Nat) (o1 : Obj Nat) (c1 : Bool) (tr1 : List UEv) (o2 : Obj Nat),
      storeResult natAsDict natMkDict ⟨[], 0⟩ 1 2 3 4 5 = .ok (db1, o1, c1, tr1) ∧
      storeResult natAsDict natMkDict db1 1 2 3 4 5 =
        .ok (db1, o2, false, [.getOrCreate, .save]) ∧
      (db1.rows.filter (fun o => rowMatches o [("task_id", 1)])).length = 1 ∧
      ∀ r ∈ db1.rows, rowMatches r [("task_id", 1)] = true →
        dlookup r.attrs "task_id" = some 1 ∧
        dlookup r.attrs "status" = some 3 ∧
        dlookup r.attrs "result" = some 2 ∧
        dlookup r.attrs "traceback" = some 4 ∧
        dlookup r.attrs "meta" = some (natMkDict [("children", 5)]) :=
  store_result_idempotent natAsDict natMkDict natAsDict_natMkDict
    ⟨[], 0⟩ 1 2 3 4 5 (by decide) (by decide) (by decide)

/-! ## `TaskManager.warn_if_repeatable_read` and the MySQL version probe

The probe's inputs (engine setting, `select version()` result, the
execute/fetch outcome of the isolation query) are gathered in a structure;
the function itself is pure, returning which session variable it queried
and whether it warned, or the `TypeError` Python raises when the parsed
version tuple cannot be compared with `(5, 7, 20)`. -/

/-- Python scalars occurring in the parsed MySQL version tuple: version
components are `int(n)` when numeric and kept as strings otherwise. -/
inductive PyScalar
  | pint (n : Nat)
  | pstr (s : List Char)
deriving DecidableEq

/-- Lexicographic comparison of character lists (Python string order). -/
def cmpChars : List Char → List Char → Ordering
  | [], [] => .eq
  | [], _ :: _ => .lt
  | _ :: _, [] => .gt
  | a :: as, b :: bs =>
      match compare a b with
      | .eq => cmpChars as bs
      | o => o

/-- Python comparison of two scalars: ints compare numerically, strings
lexicographically, and an int/str comparison raises `TypeError` (`none`,
Python 3 semantics). -/
def scalarCmp : PyScalar → PyScalar → Option Ordering
  | .pint a, .pint b => some (compare a b)
  | .pstr a, .pstr b => some (cmpChars a b)
  | _, _ => none

/-- Python tuple comparison: lexicographic, the shorter tuple first on an
equal prefix; `none` when a `TypeError` is raised at the deciding
position. -/
def tupleCmp : List PyScalar → List PyScalar → Option Ordering
  | [], [] => some .eq
  | [], _ :: _ => some .lt
  | _ :: _, [] => some .gt
  | a :: as, b :: bs =>
      match scalarCmp a b with
      | none => none
      | some .eq => tupleCmp as bs
      | some o => some o

/-- Python `t >= u` on tuples, defined when the comparison is. -/
def pyGe (a b : List PyScalar) : Option Bool :=
  (tupleCmp a b).map (fun o => match o with | .lt => false | _ => true)

/-- Split a character list at every `.` or `-` occurrence, as
`re.split(r"[.\-]", val)` does (empty components are kept). -/
def splitChars (p : Char → Bool) : List Char → List (List Char)
  | [] => [[]]
  | c :: cs =>
      match splitChars p cs with
      | [] => [[c]]
      | g :: gs => if p c then [] :: g :: gs else (c :: g) :: gs

/-- `int(n)` on a version component: defined exactly for nonempty strings
of decimal digits. -/
def digitsToNat (cs : List Char) : Option Nat :=
  if cs ≠ [] ∧ cs.all Char.isDigit then
    some (cs.foldl (fun n c => n * 10 + (c.toNat - 48)) 0)
  else none

/-- One component of the version tuple: `int(n)` when that succeeds, the
string itself on `ValueError`. -/
def parseComponent (cs : List Char) : PyScalar :=
  match digitsToNat cs with
  | some n => .pint n
  | none => .pstr cs

/-- `TaskManager._get_server_version_info_for_mysql`: split the version
string on `.` and `-` and parse the components. -/
def mysqlVersionTuple (val : String) : List PyScalar :=
  (splitChars (fun c => c == '.' || c == '-') val.data).map parseComponent

/-- Characterwise prefix test. -/
def startsWithL : List Char → List Char → Bool
  | [], _ => true
  | _ :: _, [] => false
  | a :: as, b :: bs => a == b && startsWithL as bs

/-- Substring test on character lists. -/
def hasSubL (pat : List Char) : List Char → Bool
  | [] => pat.isEmpty
  | c :: cs => startsWithL pat (c :: cs) || hasSubL pat cs

/-- ASCII lowering of a character list (`str.lower()`). -/
def lowerChars (cs : List Char) : List Char :=
  cs.map Char.toLower

/-- `'mysql' in engine.lower()`. -/
def engineIsMySQL (engine : String) : Bool :=
  hasSubL "mysql".data (lowerChars engine.data)

/-- The session state `warn_if_repeatable_read` reads. -/
structure MySQLProbe where
  engine : String
  versionString : String
  executeOk : Bool
  isolationRow : String
deriving DecidableEq

/-- Python exceptions escaping the probe. -/
inductive PyErr
  | typeError
deriving DecidableEq

/-- The probe's observable outcome: which isolation variable was queried
(if any) and whether `TxIsolationWarning` was emitted. -/
structure ProbeOut where
  queried : Option String
  warned : Bool
deriving DecidableEq

/-- `TaskManager.warn_if_repeatable_read`: only for a MySQL engine; pick
the session variable by comparing the parsed server version with
`(5, 7, 20)`; fetch the isolation level when the query returns rows and
warn exactly on `'REPEATABLE-READ'`. -/
def warnIfRepeatableRead (p : MySQLProbe) : Except PyErr ProbeOut :=
  if engineIsMySQL p.engine then
    match pyGe (mysqlVersionTuple p.versionString)
        [.pint 5, .pint 7, .pint 20] with
    | none => .error .typeError
    | some ge =>
        let var := if ge then "@@transaction_isolation" else "@@tx_isolation"
        if p.executeOk then
          if p.isolationRow = "REPEATABLE-READ" then
            .ok ⟨some var, true⟩
          else
            .ok ⟨some var, false⟩
        else
          .ok ⟨some var, false⟩
  else
    .ok ⟨none, false⟩

/-- C4: on every run whose version comparison is defined (the probe raises
no `TypeError`), `warn_if_repeatable_read` emits `TxIsolationWarning` if
and only if the engine name contains `mysql` case-insensitively, the
isolation query returns a row, and the fetched level is exactly
`REPEATABLE-READ`. -/
theorem warn_if_repeatable_read_iff (p : MySQLProbe)
    (hdef : engineIsMySQL p.engine = true →
      (pyGe (mysqlVersionTuple p.versionString)
        [.pint 5, .pint 7, .pint 20]).isSome = true) :
    ∃ out : ProbeOut, warnIfRepeatableRead p = .ok out ∧
      (out.warned = true ↔
        engineIsMySQL p.engine = true ∧ p.executeOk = true ∧
        p.isolationRow = "REPEATABLE-READ") := by
  by_cases hm : engineIsMySQL p.engine = true
  · obtain ⟨ge, hge⟩ := Option.isSome_iff_exists.mp (hdef hm)
    refine ⟨⟨some (if ge then "@@transaction_isolation" else "@@tx_isolation"),
            p.executeOk && decide (p.isolationRow = "REPEATABLE-READ")⟩,
            ?_, ?_⟩
    · unfold warnIfRepeatableRead
      rw [if_pos hm, hge]
      by_cases hok : p.executeOk = true
      · by_cases hiso : p.isolationRow = "REPEATABLE-READ" <;>
          simp [hok, hiso]
      · rw [Bool.not_eq_true] at hok
        simp [hok]
    · simp [hm]
  · refine ⟨⟨none, false⟩, ?_, ?_⟩
    · unfold warnIfRepeatableRead
      rw [if_neg hm]
    · simp [hm]

/-- C4 witness: a MySQL engine on version 8.0.23 with a fetched
REPEATABLE-READ level warns. -/
theorem warn_if_repeatable_read_iff_witness :
    ∃ out : ProbeOut,
      warnIfRepeatableRead
        ⟨"django.db.backends.mysql", "8.0.23", true, "REPEATABLE-READ"⟩ =
        .ok out ∧
      (out.warned = true ↔
        engineIsMySQL "django.db.backends.mysql" = true ∧
        (true : Bool) = true ∧
        ("REPEATABLE-READ" : String) = "REPEATABLE-READ") :=
  warn_if_repeatable_read_iff
    ⟨"django.db.backends.mysql", "8.0.23", true, "REPEATABLE-READ"⟩
    (fun _ => by decide)

/-- C5: for a MySQL engine, whenever the parsed server version tuple
compares (without `TypeError`) with `(5, 7, 20)`, the probe queries
`@@transaction_isolation` exactly when the tuple is greater or equal, and
`@@tx_isolation` otherwise. -/
theorem isolation_variable_choice (p : MySQLProbe) (b : Bool)
    (hm : engineIsMySQL p.engine = true)
    (hcmp : pyGe (mysqlVersionTuple p.versionString)
        [.pint 5, .pint 7, .pint 20] = some b) :
    ∃ out : ProbeOut, warnIfRepeatableRead p = .ok out ∧
      out.queried =
        some (if b then "@@transaction_isolation" else "@@tx_isolation") := by
  refine ⟨⟨some (if b then "@@transaction_isolation" else "@@tx_isolation"),
          p.executeOk && decide (p.isolationRow = "REPEATABLE-READ")⟩,
          ?_, rfl⟩
  unfold warnIfRepeatableRead
  rw [if_pos hm, hcmp]
  by_cases hok : p.executeOk = true
  · by_cases hiso : p.isolationRow = "REPEATABLE-READ" <;> simp [hok, hiso]
  · rw [Bool.not_eq_true] at hok
    simp [hok]

/-- C5 witness: version string `5.7.20-log` parses to a tuple that is
greater or equal to `(5, 7, 20)` (trailing `log` component), so
`@@transaction_isolation` is queried. -/
theorem isolation_variable_choice_witness :
    ∃ out : ProbeOut,
      warnIfRepeatableRead ⟨"backend.mysql", "5.7.20-log", false, ""⟩ =
        .ok out ∧
      out.queried =
        some (if true then "@@transaction_isolation" else "@@tx_isolation") :=
  isolation_variable_choice ⟨"backend.mysql", "5.7.20-log", false, ""⟩ true
    (by decide) (by decide)

/-! ## `TaskManager.get_task` -/

/-- `TaskManager.get_task(task_id)`: `get` the row; on `DoesNotExist`,
check `_last_id` (performing the repeatable-read warning check when it
equals the missed id), record the missed id in `_last_id`, and return a
fresh unsaved instance carrying the task id.  The result records the
returned instance, whether it is fresh (unsaved, its `pk` immaterial), the
new `_last_id`, and whether the warning check ran. -/
def getTask (db : DB V) (lastId : Option V) (tid : V) :
    Except OrmErr (Obj V × Bool × Option V × Bool) :=
  match db.rows.filter (fun o => rowMatches o [("task_id", tid)]) with
  | [o] => .ok (o, false, lastId, false)
  | [] => .ok (⟨db.nextPk, [("task_id", tid)]⟩, true, some tid,
               decide (lastId = some tid))
  | _ => .error .multipleReturned

/-- A sequence of `get_task` calls against a fixed table, threading
`_last_id`; per call it records `(missed, warnChecked)`. -/
def runGetTasks (db : DB V) : Option V → List V → List (Bool × Bool)
  | _, [] => []
  | st, t :: ts =>
      match getTask db st t with
      | .ok (_, fresh, st', warned) => (fresh, warned) :: runGetTasks db st' ts
      | .error _ => []

/-- C8 as stated: the warning check is triggered only when the same task
id misses on two *consecutive* `get_task` calls. -/
def consecutiveMissClaim : Prop :=
  ∀ (db : DB Nat) (ts : List Nat) (i : Nat)
    (h : i < (runGetTasks db none ts).length),
    ((runGetTasks db none ts).get ⟨i, h⟩).2 = true →
    1 ≤ i ∧ ts.get? (i - 1) = ts.get? i ∧
      ∃ h' : i - 1 < (runGetTasks db none ts).length,
        ((runGetTasks db none ts).get ⟨i - 1, h'⟩).1 = true

/-- C8 counterexample: with one stored row for task 2, the call sequence
`get_task 1; get_task 2; get_task 1` triggers the warning check on the
third call — the second call was a *hit for a different id*, so the two
misses of task 1 are not consecutive calls, yet `_last_id` still holds 1. -/
theorem get_task_consecutive_miss_false : ¬ consecutiveMissClaim := by
  intro h
  have hc := h ⟨[⟨0, [("task_id", 2)]⟩], 1⟩ [1, 2, 1] 2 (by decide) (by decide)
  exact absurd hc.2.1 (by decide)

/-- C8 (amended): `get_task` never raises `DoesNotExist`: with at most one
stored row per task id it returns the stored row on a hit (no warning
check, `_last_id` unchanged), and on a miss returns a fresh unsaved
instance carrying the task id, runs the warning check exactly when
`_last_id` equals the missed id (i.e. when the most recent *miss* — not
necessarily the previous call — was for the same id), and sets `_last_id`
to the missed id. -/
theorem get_task_spec {V : Type} [DecidableEq V] (db : DB V)
    (lastId : Option V) (tid : V)
    (hcount :
      (db.rows.filter (fun o => rowMatches o [("task_id", tid)])).length ≤ 1) :
    (∀ o, db.rows.filter (fun o => rowMatches o [("task_id", tid)]) = [o] →
      getTask db lastId tid = .ok (o, false, lastId, false)) ∧
    (db.rows.filter (fun o => rowMatches o [("task_id", tid)]) = [] →
      getTask db lastId tid =
        .ok (⟨db.nextPk, [("task_id", tid)]⟩, true, some tid,
             decide (lastId = some tid))) ∧
    ∃ x, getTask db lastId tid = .ok x := by
  refine ⟨?_, ?_, ?_⟩
  · intro o hfil
    simp only [getTask, hfil]
  · intro hfil
    simp only [getTask, hfil]
  · cases hfil : db.rows.filter (fun o => rowMatches o [("task_id", tid)]) with
    | nil =>
        refine ⟨(⟨db.nextPk, [("task_id", tid)]⟩, true, some tid,
          decide (lastId = some tid)), ?_⟩
        simp only [getTask, hfil]
    | cons o rest =>
        cases rest with
        | nil =>
            refine ⟨(o, false, lastId, false), ?_⟩
            simp only [getTask, hfil]
        | cons o2 rest2 =>
            exfalso
            rw [hfil] at hcount
            simp at hcount

/-- C8 (amended) witness: a miss of task 1 while `_last_id` is already 1
returns a fresh instance and runs the warning check. -/
theorem get_task_spec_witness :
    getTask (⟨[⟨0, [("task_id", 2)]⟩], 1⟩ : DB Nat) (some 1) 1 =
      .ok (⟨1, [("task_id", 1)]⟩, true, some 1,
           decide ((some 1 : Option Nat) = some 1)) :=
  (get_task_spec (⟨[⟨0, [("task_id", 2)]⟩], 1⟩ : DB Nat) (some 1) 1
    (by decide)).2.1 (by decide)

/-! ## `ResultManager.delete_expired` -/

/-- A task-result row as far as `delete_expired` is concerned: its
`date_done` timestamp, its `hidden` flag, and an identifier standing for
the remaining columns. -/
structure ResultRow where
  rid : Nat
  date_done : Int
  hidden : Bool
deriving DecidableEq

/-- `ResultManager.get_all_expired(expires)`: rows with
`date_done < now() - expires`. -/
def getAllExpired (nowT expires : Int) (db : List ResultRow) :
    List ResultRow :=
  db.filter (fun r => r.date_done < nowT - expires)

/-- Phase 1 of `delete_expired`: `get_all_expired(expires).update(hidden=True)`. -/
def markExpiredHidden (nowT expires : Int) (db : List ResultRow) :
    List ResultRow :=
  db.map (fun r =>
    if r.date_done < nowT - expires then { r with hidden := true } else r)

/-- `ResultManager.delete_expired(expires)`: mark the expired rows hidden,
then `DELETE FROM ... WHERE hidden=true` over the whole table. -/
def deleteExpired (nowT expires : Int) (db : List ResultRow) :
    List ResultRow :=
  (markExpiredHidden nowT expires db).filter (fun r => !r.hidden)

/-- C9: `delete_expired` keeps exactly the rows that were neither already
hidden nor expired, unchanged and in order; equivalently, the deleted rows
are the union of the newly expired rows and all previously hidden rows
(already-hidden non-expired rows included), and unhidden non-expired rows
are untouched. -/
theorem delete_expired_spec (nowT expires : Int) (db : List ResultRow) :
    deleteExpired nowT expires db =
      db.filter (fun r =>
        !r.hidden && !(decide (r.date_done < nowT - expires))) ∧
    ∀ r ∈ db, (r ∉ deleteExpired nowT expires db ↔
      r.hidden = true ∨ r.date_done < nowT - expires) := by
  have hmain : deleteExpired nowT expires db =
      db.filter (fun r =>
        !r.hidden && !(decide (r.date_done < nowT - expires))) := by
    induction db with
    | nil => rfl
    | cons r t ih =>
        unfold deleteExpired markExpiredHidden at ih ⊢
        by_cases he : r.date_done < nowT - expires
        · simp [List.filter_cons, he, ih]
        · simp [List.filter_cons, he, ih]
  refine ⟨hmain, ?_⟩
  intro r hr
  rw [hmain]
  by_cases hh : r.hidden <;> by_cases hd : r.date_done < nowT - expires <;>
    simp [List.mem_filter, hh, hd, hr]

/-- C9 witness: with `now - expires = -5`, a fresh row survives, an
expired row is deleted, and an already-hidden non-expired row is deleted
too. -/
theorem delete_expired_spec_witness :
    deleteExpired 0 5 [⟨0, 0, false⟩, ⟨1, (-10 : Int), false⟩, ⟨2, 5, true⟩] =
      List.filter (fun r =>
        !r.hidden && !(decide (r.date_done < 0 - 5)))
        [⟨0, 0, false⟩, ⟨1, (-10 : Int), false⟩, ⟨2, 5, true⟩] ∧
    ∀ r ∈ [(⟨0, 0, false⟩ : ResultRow), ⟨1, (-10 : Int), false⟩, ⟨2, 5, true⟩],
      (r ∉ deleteExpired 0 5
          [⟨0, 0, false⟩, ⟨1, (-10 : Int), false⟩, ⟨2, 5, true⟩] ↔
        r.hidden = true ∨ r.date_done < 0 - 5) :=
  delete_expired_spec 0 5 [⟨0, 0, false⟩, ⟨1, (-10 : Int), false⟩, ⟨2, 5, true⟩]

/-! ## `TaskSetManager.restore_taskset` and `delete_taskset` -/

/-- `TaskSetManager.restore_taskset(taskset_id)`: `get` by taskset id,
swallowing `DoesNotExist` (returning `None`). -/
def restoreTaskset (db : DB V) (tsid : V) : Except OrmErr (Option (Obj V)) :=
  match db.rows.filter (fun o => rowMatches o [("taskset_id", tsid)]) with
  | [o] => .ok (some o)
  | [] => .ok none
  | _ => .error .multipleReturned

/-- `obj.delete()`: remove the row with the object's primary key. -/
def deleteObj (db : DB V) (o : Obj V) : DB V :=
  { db with rows := db.rows.filter (fun r => r.pk ≠ o.pk) }

/-- `TaskSetManager.delete_taskset(taskset_id)`: restore, and delete the
row if one was found (`if s: s.delete()`; a model instance is always
truthy). -/
def deleteTaskset (db : DB V) (tsid : V) : Except OrmErr (DB V) :=
  match restoreTaskset db tsid with
  | .ok (some s) => .ok (deleteObj db s)
  | .ok none => .ok db
  | .error e => .error e

theorem filter_pk_ne_eq_erase (l : List (Obj V)) (o : Obj V)
    (hnd : (l.map Obj.pk).Nodup) (hmem : o ∈ l) :
    l.filter (fun r => r.pk ≠ o.pk) = l.erase o := by
  induction l with
  | nil => cases hmem
  | cons a t ih =>
      have hnd' : a.pk ∉ t.map Obj.pk ∧ (t.map Obj.pk).Nodup := by
        simpa using hnd
      by_cases hao : a = o
      · subst hao
        rw [List.erase_cons_head]
        rw [List.filter_cons_of_neg (by simp)]
        apply List.filter_eq_self.mpr
        intro r hr
        simp only [decide_eq_true_eq, ne_eq]
        intro hpk
        exact hnd'.1 (hpk ▸ List.mem_map_of_mem Obj.pk hr)
      · have homem : o ∈ t := by
          rcases List.mem_cons.mp hmem with h | h
          · exact absurd h.symm hao
          · exact h
        have hpk : ¬ a.pk = o.pk := by
          intro h
          exact hnd'.1 (h ▸ List.mem_map_of_mem Obj.pk homem)
        rw [List.erase_cons_tail (by simp [hao])]
        rw [List.filter_cons_of_pos (by simp [hpk])]
        rw [ih hnd'.2 homem]

/-- C10: with distinct primary keys, when no row stores the taskset id,
`restore_taskset` returns `None` (the `DoesNotExist` is swallowed) and
`delete_taskset` leaves the table unchanged; when exactly one row does,
`restore_taskset` returns it and `delete_taskset` removes exactly that
row. -/
theorem restore_delete_taskset_spec {V : Type} [DecidableEq V] (db : DB V)
    (tsid : V) (hnd : (db.rows.map Obj.pk).Nodup) :
    (db.rows.filter (fun o => rowMatches o [("taskset_id", tsid)]) = [] →
      restoreTaskset db tsid = .ok none ∧ deleteTaskset db tsid = .ok db) ∧
    (∀ o, db.rows.filter (fun o => rowMatches o [("taskset_id", tsid)]) = [o] →
      restoreTaskset db tsid = .ok (some o) ∧
      deleteTaskset db tsid = .ok ⟨db.rows.erase o, db.nextPk⟩) := by
  constructor
  · intro hfil
    have hres : restoreTaskset db tsid = .ok none := by
      simp only [restoreTaskset, hfil]
    exact ⟨hres, by simp only [deleteTaskset, hres]⟩
  · intro o hfil
    have hres : restoreTaskset db tsid = .ok (some o) := by
      simp only [restoreTaskset, hfil]
    have hmem : o ∈ db.rows :=
      List.mem_of_mem_filter (hfil ▸ List.mem_singleton_self o)
    refine ⟨hres, ?_⟩
    simp only [deleteTaskset, hres]
    rw [show deleteObj db o =
          ⟨db.rows.filter (fun r => r.pk ≠ o.pk), db.nextPk⟩ from rfl]
    rw [filter_pk_ne_eq_erase db.rows o hnd hmem]

/-- C10 witness: on a one-row table, the stored taskset is restored and
deleted; a missing taskset id restores to `None` and deletes nothing. -/
theorem restore_delete_taskset_spec_witness :
    restoreTaskset (⟨[⟨0, [("taskset_id", 9)]⟩], 1⟩ : DB Nat) 9 =
      .ok (some ⟨0, [("taskset_id", 9)]⟩) ∧
    deleteTaskset (⟨[⟨0, [("taskset_id", 9)]⟩], 1⟩ : DB Nat) 9 =
      .ok ⟨List.erase [⟨0, [("taskset_id", 9)]⟩] ⟨0, [("taskset_id", 9)]⟩, 1⟩ :=
  (restore_delete_taskset_spec (⟨[⟨0, [("taskset_id", 9)]⟩], 1⟩ : DB Nat) 9
    (by decide)).2 ⟨0, [("taskset_id", 9)]⟩ (by decide)

end DjCelery
